import Mathlib

/-!
Verification development for the streaming VCF parser in
`src/allel/opt/io_vcf_read.pyx` (the second revision in that file,
lines 947-2968, whose `iter_vcf` driver starts at line 1050).

The parser is a byte-at-a-time state machine over a refilled input
buffer.  We embed it shallowly:

* a byte is a `Nat` (the format is 7-bit ASCII; the value 0 is the
  end-of-stream sentinel produced by `context_getc` when the reader
  is exhausted, lines 1397-1409);
* the input is a `List Nat`; `getc` pops the next byte, yielding the
  sentinel 0 once the list is exhausted (a zero-byte refill);
* the scratch buffer `context.temp` is a `List Nat`;
* a parser is a function from the lookahead byte and the remaining
  input to its results; loops of the source that can run forever
  (their exit condition can never be reached once the lookahead is
  stuck at 0) are embedded either with an `Option` result where
  `none` marks the diverging case, or with explicit fuel;
* warnings emitted through `warn` (line 1024) are collected in lists.
-/

namespace VcfRead

/-- ASCII code of `\t` (source line 1004). -/
def TAB : Nat := 9
/-- ASCII code of `\n` (source line 1005). -/
def NEWLINE : Nat := 10
/-- ASCII code of `:` (source line 1007). -/
def COLON : Nat := 58
/-- ASCII code of `;` (source line 1008). -/
def SEMICOLON : Nat := 59
/-- ASCII code of `.` (source line 1009). -/
def PERIOD : Nat := 46
/-- ASCII code of `,` (source line 1010). -/
def COMMA : Nat := 44
/-- ASCII code of `/` (source line 1011). -/
def SLASH : Nat := 47
/-- ASCII code of `|` (source line 1012). -/
def PIPE : Nat := 124
/-- ASCII code of `=` (source line 1013). -/
def EQUALS : Nat := 61

/-- Bytes of an ASCII string, for writing concrete input streams. -/
def bytesOf (s : String) : List Nat := s.toList.map Char.toNat

/-- `context_getc` (lines 1397-1409): pop the next byte of the stream into
the lookahead `c`; once the stream is exhausted (a refill returns zero
bytes) the lookahead is the sentinel 0. -/
def getc : List Nat → Nat × List Nat
  | [] => (0, [])
  | x :: xs => (x, xs)

/-- The recoverable anomalies reported through `warn` (line 1024),
one constructor per distinct message relevant here. -/
inductive Warning
  | intEmpty      -- "expected integer, found empty value" (line 1451)
  | intNotAll     -- "not all characters parsed for integer value" (line 1476)
  | intErr        -- "error parsing integer value" (line 1480)
  | floatEmpty    -- "expected floating, found empty value" (line 1491)
  | floatNotAll   -- "not all characters parsed for floating value" (line 1516)
  | floatErr      -- "error parsing floating value" (line 1520)
  | emptyFilter   -- "empty FILTER" (line 1913)
  | emptyFormat   -- "empty FORMAT" (line 2406)
  | infoMissingKey -- "error parsing INFO field, missing key" (line 2015)
  deriving DecidableEq, Repr

/-- Whitespace bytes skipped by C `strtol`/`strtod`. -/
def isSpaceByte (c : Nat) : Bool := c = 32 || (9 ≤ c && c ≤ 13)

/-- ASCII decimal digit test. -/
def isDigitByte (c : Nat) : Bool := 48 ≤ c && c ≤ 57

/-- Value of a string of ASCII decimal digits. -/
def digitsToNat (ds : List Nat) : Nat := ds.foldl (fun a d => a * 10 + (d - 48)) 0

/-- Model of C `strtol(s, &end, 10)` on a NUL-free byte list: skip leading
whitespace, an optional sign, then decimal digits.  Returns the value and
the number of characters consumed (`end - s`); if no digits are found the
value is 0 and nothing is consumed. -/
def strtol10 (s : List Nat) : Int × Nat :=
  let w := (s.takeWhile isSpaceByte).length
  let s1 := s.drop w
  let neg := s1.headD 0 = 45
  let sl := if s1.headD 0 = 45 ∨ s1.headD 0 = 43 then 1 else 0
  let ds := (s1.drop sl).takeWhile isDigitByte
  if ds.length = 0 then (0, 0)
  else ((if neg then -(digitsToNat ds : Int) else (digitsToNat ds : Int)), w + sl + ds.length)

/-- Model of C `strtod(s, &end)` restricted to the decimal forms
(sign, digits, optional fraction, optional exponent), with the value
taken exactly as a rational.  The hexadecimal, infinity and nan forms
of `strtod` are not modelled; no input considered here uses them. -/
def strtodParse (s : List Nat) : ℚ × Nat :=
  let w := (s.takeWhile isSpaceByte).length
  let s1 := s.drop w
  let neg := s1.headD 0 = 45
  let sl := if s1.headD 0 = 45 ∨ s1.headD 0 = 43 then 1 else 0
  let s2 := s1.drop sl
  let d1 := s2.takeWhile isDigitByte
  let s3 := s2.drop d1.length
  let hasDot := s3.headD 0 = PERIOD
  let d2 := if hasDot then (s3.drop 1).takeWhile isDigitByte else []
  let dotLen := if hasDot then 1 else 0
  if d1.length + d2.length = 0 then (0, 0)
  else
    let s4 := s3.drop (dotLen + d2.length)
    let mant : ℚ := ((digitsToNat d1 : ℚ) * (10 : ℚ) ^ d2.length + (digitsToNat d2 : ℚ))
      / (10 : ℚ) ^ d2.length
    let s5 := s4.drop 1
    let esl := if s5.headD 0 = 45 ∨ s5.headD 0 = 43 then 1 else 0
    let ed := (s5.drop esl).takeWhile isDigitByte
    let expOk := (s4.headD 0 = 101 ∨ s4.headD 0 = 69) ∧ ed.length ≠ 0
    let e : Int := if s5.headD 0 = 45 then -(digitsToNat ed : Int) else (digitsToNat ed : Int)
    let v0 : ℚ := if neg then -mant else mant
    ((if expOk then v0 * (10 : ℚ) ^ e else v0),
      w + sl + d1.length + dotLen + d2.length + (if expOk then 1 + esl + ed.length else 0))

/-- C cast of a `long` into a signed 32-bit cell (POS and the int32
INFO/calldata arrays store `context.l` by plain assignment). -/
def wrap32 (v : Int) : Int := (v + 2 ^ 31) % 2 ^ 32 - 2 ^ 31

/-- C cast of a `long` into a signed 8-bit cell (the int8 genotype array). -/
def wrap8 (v : Int) : Int := (v + 2 ^ 7) % 2 ^ 8 - 2 ^ 7

/-- `temp_tolong` (lines 1444-1481): empty scratch warns and fails; a lone
`.` is an explicit missing value (fail, no warning); otherwise `strtol` is
run on the NUL-terminated scratch: consuming every character is success,
consuming a proper nonempty prefix warns but still reports success, and
consuming nothing warns and fails.  `some v` models `context.l = v` with
return value 1, `none` models return value 0. -/
def temp_tolong (temp : List Nat) : Option Int × List Warning :=
  if temp = [] then (none, [Warning.intEmpty])
  else if temp = [PERIOD] then (none, [])
  else
    let r := strtol10 temp
    if r.2 = temp.length then (some r.1, [])
    else if 0 < r.2 then (some r.1, [Warning.intNotAll])
    else (none, [Warning.intErr])

/-- `temp_todouble` (lines 1484-1521): same shape as `temp_tolong` with
`strtod`; `some v` models `context.d = v` with return value 1. -/
def temp_todouble (temp : List Nat) : Option ℚ × List Warning :=
  if temp = [] then (none, [Warning.floatEmpty])
  else if temp = [PERIOD] then (none, [])
  else
    let r := strtodParse temp
    if r.2 = temp.length then (some r.1, [])
    else if 0 < r.2 then (some r.1, [Warning.floatNotAll])
    else (none, [Warning.floatErr])

/-- `temp_append` (lines 1416-1429): stores the current character at
offset `temp_size` of the scratch buffer and increments `temp_size`.
The capacity check is absent (commented out with a TODO), so the write
offset is `temp_size` whether or not it is below `temp_buffer_size`,
the size is not clamped, and no warning is emitted.  Returns
(write offset, new temp_size, warnings emitted). -/
def temp_append (temp_size c : Nat) : Nat × Nat × List Warning :=
  (temp_size, temp_size + 1, [])

/-- The `while context.c != TAB: temp_append; context_getc` loop shared by
`pos_parse` (lines 1663-1665) and `qual_parse` (lines 1823-1825), reading
the scratch buffer up to a TAB.  `none` is the diverging case: the stream
is exhausted before any TAB, the lookahead collapses to the sentinel 0 and
the loop condition `c != TAB` stays true forever.  On `some (temp, rest)`
the lookahead is the TAB and `rest` is the input after it. -/
def readUntilTab : Nat → List Nat → Option (List Nat × List Nat)
  | c, input =>
    if c = TAB then some ([], input)
    else
      match input with
      | [] => none
      | x :: xs => (readUntilTab x xs).map (fun r => (c :: r.1, r.2))

/-- `pos_parse` (lines 1651-1677) acting on the `variants/POS` column
`arr` (an int32 array prefilled with -1, `PosInt32Parser.malloc`,
lines 1641-1644) at row `chunk_variant_index = cvi`: read scratch until
TAB, run `temp_tolong`, store `context.l` (cast to int32) on success,
and advance the input past the TAB. -/
def pos_parse (arr : List Int) (cvi : Nat) (c : Nat) (input : List Nat) :
    Option (List Int × (Nat × List Nat) × List Warning) :=
  match readUntilTab c input with
  | none => none
  | some (temp, input1) =>
    let r := temp_tolong temp
    let arr' := match r.1 with
      | some v => arr.set cvi (wrap32 v)
      | none => arr
    some (arr', getc input1, r.2)

/-- The body of `SkipChromParser.parse` and `SkipPosParser.parse`
(lines 1619-1630, 1683-1693), and also the explicit-missing branches of
`filter_parse` (lines 1878-1881) and `info_parse` (lines 1987-1990):
`while c != TAB: getc`, then one more `getc` past the TAB.  `none` is
the diverging case (stream exhausted before any TAB, lookahead stuck
at the sentinel 0 which is never TAB). -/
def skip_until_tab : Nat → List Nat → Option (Nat × List Nat)
  | c, input =>
    if c = TAB then some (getc input)
    else
      match input with
      | [] => none
      | x :: xs => skip_until_tab x xs

/-- `SkipFieldParser.parse` (lines 1696-1708): consume bytes until TAB,
NEWLINE or the sentinel 0, then advance past the terminator.  This loop
always terminates: an exhausted stream pins the lookahead at 0, which is
a terminator; the `[]` case below is that final iteration (the next
lookahead is 0 and the loop exits, with the trailing `getc` on the empty
stream yielding `(0, [])`). -/
def skip_field : Nat → List Nat → Nat × List Nat
  | c, input =>
    if c = TAB ∨ c = NEWLINE ∨ c = 0 then getc input
    else
      match input with
      | [] => (0, [])
      | x :: xs => skip_field x xs

/-- `SkipAllCalldataParser.parse` (lines 1711-1720): consume bytes until
NEWLINE or the sentinel 0, then advance past the terminator.  As in
`skip_field`, an exhausted stream exits through the sentinel. -/
def skip_all_calldata : Nat → List Nat → Nat × List Nat
  | c, input =>
    if c = NEWLINE ∨ c = 0 then getc input
    else
      match input with
      | [] => (0, [])
      | x :: xs => skip_all_calldata x xs

/-- Fuel-indexed form of the `while context.c != TAB` read loop of
`string_parse` (lines 1599-1608), writes included: `memory` is the
`itemsize`-byte slot of the current row and `stored` the count of
characters already stored; characters beyond `itemsize` are dropped.
Exhausting the fuel yields `none`, so `∀ fuel, ... = none` states that
the loop never exits. -/
def string_parse_loop (itemsize : Nat) :
    Nat → List Nat → Nat → Nat → List Nat → Option (List Nat × (Nat × List Nat))
  | 0, _, _, _, _ => none
  | fuel + 1, mem, stored, c, input =>
    if c = TAB then some (mem, getc input)
    else
      let next := getc input
      if stored < itemsize then
        string_parse_loop itemsize fuel (mem.set stored c) (stored + 1) next.1 next.2
      else
        string_parse_loop itemsize fuel mem stored next.1 next.2

/-- Fuel-indexed form of the `while context.c != TAB: temp_append; getc`
read loop shared by `pos_parse` and `qual_parse` (lines 1663-1665 and
1823-1825).  Exhausting the fuel yields `none`. -/
def temp_until_tab_loop :
    Nat → List Nat → Nat → List Nat → Option (List Nat × List Nat)
  | 0, _, _, _ => none
  | fuel + 1, temp, c, input =>
    if c = TAB then some (temp, input)
    else
      let next := getc input
      temp_until_tab_loop fuel (temp ++ [c]) next.1 next.2

/-- `qual_parse` (lines 1812-1837) on the `variants/QUAL` cell of the
current row, with the read loop given explicit fuel: read scratch until
TAB, run `temp_todouble`, store `context.d` on success, advance past the
TAB. -/
def qual_parse_fuel (fuel : Nat) (cell : ℚ) (c : Nat) (input : List Nat) :
    Option (ℚ × (Nat × List Nat) × List Warning) :=
  match temp_until_tab_loop fuel [] c input with
  | none => none
  | some (temp, input1) =>
    let r := temp_todouble temp
    let cell' := match r.1 with
      | some v => v
      | none => cell
    some (cell', getc input1, r.2)

/-- The `filter_position` dictionary
`{f: i for i, f in enumerate(self.filters)}` (line 1849) looked up with
default -1 (line 1924): the position of token `t` among the configured
filter names, a later duplicate entry overriding an earlier one exactly
as in the Python dict comprehension. -/
def filter_position (flt : List (List Nat)) (t : List Nat) : Option Nat :=
  (flt.enum).foldl (fun acc p => if p.2 = t then some p.1 else acc) none

/-- `filter_store` (lines 1907-1930): an empty scratch warns (`empty
FILTER`) and stores nothing; otherwise the scratch is looked up in
`filter_position` and, when present, its boolean column of the current
row is set to 1; an unknown token stores nothing.  `row` is the current
record's row of `FilterParser.values` (length `len(filters) + 1`,
line 1855). -/
def filter_store (flt : List (List Nat)) (row : List Bool) (temp : List Nat) :
    List Bool × List Warning :=
  if temp = [] then (row, [Warning.emptyFilter])
  else
    match filter_position flt temp with
    | some i => (row.set i true, [])
    | none => (row, [])

/-- The token delimiters of the `filter_parse` main loop (line 1890). -/
def isFilterDelim (c : Nat) : Bool := c = COMMA || c = COLON || c = SEMICOLON

/-- The terminators of the `filter_parse` main loop (line 1886). -/
def isFilterTerm (c : Nat) : Bool := c = TAB || c = NEWLINE || c = 0

/-- The main loop of `filter_parse` (lines 1884-1902): on TAB, NEWLINE or
the sentinel 0, store the accumulated token, exit, and advance past the
terminator; on COMMA, COLON or SEMICOLON store the token and clear the
scratch; otherwise append the character.  The loop always terminates
because the sentinel 0 is a terminator; the `[]` case below is the final
iteration on an exhausted stream (the next lookahead is 0: the loop
stores the pending token and exits, and the trailing `getc` yields
`(0, [])`). -/
def filter_loop (flt : List (List Nat)) :
    Nat → List Nat → List Nat → List Bool → List Warning →
      List Bool × List Warning × (Nat × List Nat)
  | c, input, temp, row, ws =>
    if isFilterTerm c then
      let r := filter_store flt row temp
      (r.1, ws ++ r.2, getc input)
    else if isFilterDelim c then
      let r := filter_store flt row temp
      match input with
      | [] =>
        let r2 := filter_store flt r.1 []
        (r2.1, ws ++ r.2 ++ r2.2, (0, []))
      | x :: xs => filter_loop flt x xs [] r.1 (ws ++ r.2)
    else
      match input with
      | [] =>
        let r2 := filter_store flt row (temp ++ [c])
        (r2.1, ws ++ r2.2, (0, []))
      | x :: xs => filter_loop flt x xs (temp ++ [c]) row ws

/-- `filter_parse` (lines 1867-1904): if the first character of the field
is `.` the field is an explicit missing value: consume to the TAB, advance
past it and leave the row untouched (this test reads only the first byte);
otherwise run the token loop starting from an empty scratch. -/
def filter_parse (flt : List (List Nat)) (c : Nat) (input : List Nat)
    (row : List Bool) : Option (List Bool × List Warning × (Nat × List Nat)) :=
  if c = PERIOD then
    (skip_until_tab c input).map (fun st => (row, [], st))
  else
    some (filter_loop flt c input [] row [])

/-- Specification-side tokenizer for the FILTER field: split the field
bytes on COMMA/COLON/SEMICOLON, consecutive or trailing delimiters
yielding empty tokens (the result list is always nonempty). -/
def splitTokens : List Nat → List (List Nat)
  | [] => [[]]
  | a :: as =>
    match splitTokens as with
    | [] => [[]]
    | t :: ts => if isFilterDelim a then [] :: t :: ts else (a :: t) :: ts

/-- Specification-side store of a token list: each token is stored through
`filter_store` in order, accumulating the warnings. -/
def storeTokens (flt : List (List Nat)) (row : List Bool) (ws : List Warning) :
    List (List Nat) → List Bool × List Warning
  | [] => (row, ws)
  | t :: ts =>
    let r := filter_store flt row t
    storeTokens flt r.1 (ws ++ r.2) ts

/-- Prepend already-accumulated scratch bytes onto the first token. -/
def prependFirst (temp : List Nat) : List (List Nat) → List (List Nat)
  | [] => [temp]
  | t :: ts => (temp ++ t) :: ts

/-- `genotype_store` (lines 2774-2794) on the genotype row of the current
(variant, sample) pair, instantiated at the int8 width used for `GT`
(`GenotypeInt8Parser`, line 2427): an allele index at or past `ploidy` is
ignored outright (no parse, no warning, no write); otherwise the scratch
is parsed with `temp_tolong` and on success the allele value is stored
(cast to int8) at `allele_index`. -/
def genotype_store (ploidy : Nat) (row : List Int) (temp : List Nat)
    (allele_index : Nat) : List Int × List Warning :=
  if ploidy ≤ allele_index then (row, [])
  else
    let r := temp_tolong temp
    match r.1 with
    | some v => (row.set allele_index (wrap8 v), r.2)
    | none => (row, r.2)

/-- The loop of `genotype_parse` (lines 2745-2771): on `/` or `|` store
the scratch at the current allele index, advance the index and clear; on
COLON, TAB or NEWLINE store and exit without consuming the terminator;
otherwise append.  The sentinel 0 is not a terminator of this loop, so an
exhausted stream leaves the loop running forever (the lookahead sticks at
0, which falls into the append branch): `none` marks that diverging
case. -/
def genotype_loop (ploidy : Nat) :
    Nat → List Nat → List Nat → Nat → List Int → List Warning →
      Option (List Int × List Warning × (Nat × List Nat))
  | c, input, temp, ai, row, ws =>
    if c = SLASH ∨ c = PIPE then
      let r := genotype_store ploidy row temp ai
      match input with
      | [] => none
      | x :: xs => genotype_loop ploidy x xs [] (ai + 1) r.1 (ws ++ r.2)
    else if c = COLON ∨ c = TAB ∨ c = NEWLINE then
      let r := genotype_store ploidy row temp ai
      some (r.1, ws ++ r.2, (c, input))
    else
      match input with
      | [] => none
      | x :: xs => genotype_loop ploidy x xs (temp ++ [c]) ai row ws

/-- `genotype_parse` (lines 2745-2771): clear the scratch and run the
allele loop from allele index 0.  `row` is
`memory[chunk_variant_index, sample_index, :]`, of length `ploidy` and
prefilled with the fill value -1 (`GenotypeInt8Parser.malloc`,
lines 2691-2696). -/
def genotype_parse (ploidy : Nat) (row : List Int) (c : Nat)
    (input : List Nat) : Option (List Int × List Warning × (Nat × List Nat)) :=
  genotype_loop ploidy c input [] 0 row []

/-- `info_integer_store` (lines 2120-2138) on the current record's row of
an int32 INFO field of cardinality `number`: a value index at or past
`number` is ignored; otherwise the scratch is parsed with `temp_tolong`
and stored on success. -/
def info_integer_store (number : Nat) (row : List Int) (temp : List Nat)
    (value_index : Nat) : List Int × List Warning :=
  if number ≤ value_index then (row, [])
  else
    let r := temp_tolong temp
    match r.1 with
    | some v => (row.set value_index (wrap32 v), r.2)
    | none => (row, r.2)

/-- `info_floating_store` (lines 2203-2221) on the current record's row of
a float64 INFO field of cardinality `number`. -/
def info_floating_store (number : Nat) (row : List ℚ) (temp : List Nat)
    (value_index : Nat) : List ℚ × List Warning :=
  if number ≤ value_index then (row, [])
  else
    let r := temp_todouble temp
    match r.1 with
    | some v => (row.set value_index v, r.2)
    | none => (row, r.2)

/-- The loop of `info_integer_parse` (lines 2084-2117): on COMMA store the
scratch at the current value index, clear, advance the index; on
SEMICOLON, TAB, NEWLINE or the sentinel 0 store and exit without
consuming the terminator.  The sentinel is a terminator, so the loop
always exits; the `[]` case is the final iteration on an exhausted
stream. -/
def info_integer_loop (number : Nat) :
    Nat → List Nat → List Nat → Nat → List Int → List Warning →
      List Int × List Warning × (Nat × List Nat)
  | c, input, temp, vi, row, ws =>
    if c = SEMICOLON ∨ c = TAB ∨ c = NEWLINE ∨ c = 0 then
      let r := info_integer_store number row temp vi
      (r.1, ws ++ r.2, (c, input))
    else if c = COMMA then
      let r := info_integer_store number row temp vi
      match input with
      | [] =>
        let r2 := info_integer_store number r.1 [] (vi + 1)
        (r2.1, ws ++ r.2 ++ r2.2, (0, []))
      | x :: xs => info_integer_loop number x xs [] (vi + 1) r.1 (ws ++ r.2)
    else
      match input with
      | [] =>
        let r2 := info_integer_store number row (temp ++ [c]) vi
        (r2.1, ws ++ r2.2, (0, []))
      | x :: xs => info_integer_loop number x xs (temp ++ [c]) vi row ws

/-- `info_integer_parse` (lines 2084-2117): clear the scratch and run the
comma loop from value index 0 (the trailing `temp_clear` touches only the
scratch, which each caller clears again before use). -/
def info_integer_parse (number : Nat) (row : List Int) (c : Nat)
    (input : List Nat) : List Int × List Warning × (Nat × List Nat) :=
  info_integer_loop number c input [] 0 row []

/-- `SkipInfoFieldParser.parse` (lines 2546-2553): consume bytes until
SEMICOLON, TAB or the sentinel 0 (NEWLINE is not checked), without
consuming the terminator. -/
def skip_info_field : Nat → List Nat → Nat × List Nat
  | c, input =>
    if c = SEMICOLON ∨ c = TAB ∨ c = 0 then (c, input)
    else
      match input with
      | [] => (0, [])
      | x :: xs => skip_info_field x xs

/-- The INFO key `DP`, for the instantiation of `InfoParser` used below. -/
def DPkey : List Nat := bytesOf "DP"

/-- The `while context.c != TAB and context.c != SEMICOLON and
context.c != 0` recovery loop of the missing-key branch of `info_parse`
(lines 2017-2018), exiting through the sentinel on an exhausted
stream. -/
def skip_to_info_boundary : Nat → List Nat → Nat × List Nat
  | c, input =>
    if c = TAB ∨ c = SEMICOLON ∨ c = 0 then (c, input)
    else
      match input with
      | [] => (0, [])
      | x :: xs => skip_to_info_boundary x xs

/-- The sub-parser dispatch `self.parsers.get(key, self.skip_parser)`
(lines 2005, 2012, 2024) for an `InfoParser` configured with the single
int32 key `DP` of cardinality `number`: the key `DP` runs
`info_integer_parse` on the DP row, any other key runs
`SkipInfoFieldParser`. -/
def info_dispatch_DP (number : Nat) (key : List Nat) (row : List Int)
    (c : Nat) (input : List Nat) : List Int × List Warning × (Nat × List Nat) :=
  if key = DPkey then info_integer_parse number row c input
  else
    let st := skip_info_field c input
    (row, [], st)

/-- The main loop of `info_parse` (lines 1999-2034) for the `DP`-only
configuration, with explicit fuel: accumulate a key in the scratch; on
`=` advance and dispatch the sub-parser on the value (an empty key warns
and skips to the next `;`/TAB/0); on `;` dispatch a pending key as a
flag and advance; on TAB, NEWLINE or 0 dispatch a pending trailing flag,
exit, and advance past the terminator. -/
def info_loop_DP (number : Nat) :
    Nat → Nat → List Nat → List Nat → List Int → List Warning →
      Option (List Int × List Warning × (Nat × List Nat))
  | 0, _, _, _, _, _ => none
  | fuel + 1, c, input, temp, row, ws =>
    if c = TAB ∨ c = NEWLINE ∨ c = 0 then
      if temp = [] then some (row, ws, getc input)
      else
        let r := info_dispatch_DP number temp row c input
        some (r.1, ws ++ r.2.1, getc r.2.2.2)
    else if c = EQUALS then
      let n1 := getc input
      if temp = [] then
        let st := skip_to_info_boundary n1.1 n1.2
        info_loop_DP number fuel st.1 st.2 temp row (ws ++ [Warning.infoMissingKey])
      else
        let r := info_dispatch_DP number temp row n1.1 n1.2
        info_loop_DP number fuel r.2.2.1 r.2.2.2 [] r.1 (ws ++ r.2.1)
    else if c = SEMICOLON then
      if temp = [] then
        let n1 := getc input
        info_loop_DP number fuel n1.1 n1.2 temp row ws
      else
        let r := info_dispatch_DP number temp row c input
        let n1 := getc r.2.2.2
        info_loop_DP number fuel n1.1 n1.2 [] r.1 (ws ++ r.2.1)
    else
      let n1 := getc input
      info_loop_DP number fuel n1.1 n1.2 (temp ++ [c]) row ws

/-- `info_parse` (lines 1980-2036) for the `DP`-only configuration: if
the first character of the field is `.` the field is an explicit missing
value: consume to the TAB, advance past it, store nothing (the test
reads only the first byte); otherwise clear the scratch and run the main
loop. -/
def info_parse_DP (number fuel : Nat) (c : Nat) (input : List Nat)
    (row : List Int) : Option (List Int × List Warning × (Nat × List Nat)) :=
  if c = PERIOD then
    (skip_until_tab c input).map (fun st => (row, [], st))
  else
    info_loop_DP number fuel c input [] row []

/-- Length of a numpy basic slice `values[:limit]` of an axis of length
`n`: `limit=None` keeps the whole axis, `limit=m` keeps `min m n`. -/
def slice_len (n : Nat) (limit : Option Nat) : Nat :=
  match limit with
  | none => n
  | some m => min m n

/-- `GenotypeParserBase.mkchunk` (lines 2681-2683): the emitted
`calldata/GT` array is `values[:limit]` of the
`(chunk_length, n_samples, ploidy)` genotype array — no squeeze is ever
applied, whatever `ploidy` is.  The result is the emitted shape. -/
def gt_mkchunk_shape (chunk_length n_samples ploidy : Nat)
    (limit : Option Nat) : List Nat :=
  [slice_len chunk_length limit, n_samples, ploidy]

/-- numpy `squeeze(axis)` at the shape level: drop the axis (the caller
only applies it to an axis of extent 1). -/
def squeeze_axis (shape : List Nat) (axis : Nat) : List Nat :=
  shape.take axis ++ shape.drop (axis + 1)

/-- `CalldataParserBase.mkchunk` (lines 2805-2811) and
`CalldataStringParser.mkchunk` (lines 2963-2969): the emitted
`calldata/<KEY>` array is `values[:limit]` of the
`(chunk_length, n_samples, number)` array, squeezed on axis 2 when the
declared `number` is 1.  The result is the emitted shape. -/
def calldata_mkchunk_shape (chunk_length n_samples number : Nat)
    (limit : Option Nat) : List Nat :=
  let s := [slice_len chunk_length limit, n_samples, number]
  if number = 1 then squeeze_axis s 2 else s

/-- The per-record chunk bookkeeping of the `iter_vcf` driver
(lines 1243-1267), abstracted to the emitted chunk lengths: the state is
(lengths of the chunks emitted so far, `chunk_variant_index`).  After a
record completes, either `chunk_variant_index` is advanced or — when it
has reached `chunk_length - 1` — a full chunk of `chunk_length` records
is frozen and the index resets to 0. -/
def chunk_step (chunk_length : Nat) (s : List Nat × Nat) : List Nat × Nat :=
  if s.2 < chunk_length - 1 then (s.1, s.2 + 1) else (s.1 ++ [chunk_length], 0)

/-- The driver's chunk state after `n` records have been parsed. -/
def chunk_state (chunk_length : Nat) : Nat → List Nat × Nat
  | 0 => ([], 0)
  | n + 1 => chunk_step chunk_length (chunk_state chunk_length n)

/-- The emitted chunk lengths after the whole stream — `n` records — has
been parsed: the left-over partial chunk (lines 1275-1292) is emitted
with its true length `chunk_variant_index` exactly when that is
nonzero. -/
def iter_vcf_chunk_lengths (chunk_length n : Nat) : List Nat :=
  let s := chunk_state chunk_length n
  if 0 < s.2 then s.1 ++ [s.2] else s.1

/-- Result of driving the state machine through one record
(states CHROM..CALLDATA of the `while` loop, lines 1198-1241): `ok` ends
the record with the updated POS column and the lookahead state at the
start of the next record; `eof` is a break out of the loop mid-record
(the `if context.c == 0` test at the top of the loop, line 1200, taken
between two field states), carrying the column as written so far; `div`
marks a field parser that never returns. -/
inductive RecResult
  | ok : List Int → Nat → List Nat → RecResult
  | eof : List Int → RecResult
  | div : RecResult
  deriving Repr

/-- One record of the `iter_vcf` driver specialized — as the field
dispatch of lines 1081-1193 dictates — to the configuration
`fields = {'variants/POS'}`: CHROM runs `SkipChromParser`, POS runs
`PosInt32Parser` on column `arr` at row `cvi`, ID/REF/ALT/QUAL/FILTER/
INFO/FORMAT run `SkipFieldParser`, CALLDATA runs
`SkipAllCalldataParser`.  The driver re-tests `context.c == 0` before
every state, so each field parser is guarded by an `eof` check. -/
def record_parse (cvi : Nat) (arr : List Int) (c : Nat) (input : List Nat) :
    RecResult :=
  match skip_until_tab c input with
  | none => RecResult.div
  | some st1 =>
  if st1.1 = 0 then RecResult.eof arr else
  match pos_parse arr cvi st1.1 st1.2 with
  | none => RecResult.div
  | some (arr1, st2, _) =>
  if st2.1 = 0 then RecResult.eof arr1 else
  let st3 := skip_field st2.1 st2.2
  if st3.1 = 0 then RecResult.eof arr1 else
  let st4 := skip_field st3.1 st3.2
  if st4.1 = 0 then RecResult.eof arr1 else
  let st5 := skip_field st4.1 st4.2
  if st5.1 = 0 then RecResult.eof arr1 else
  let st6 := skip_field st5.1 st5.2
  if st6.1 = 0 then RecResult.eof arr1 else
  let st7 := skip_field st6.1 st6.2
  if st7.1 = 0 then RecResult.eof arr1 else
  let st8 := skip_field st7.1 st7.2
  if st8.1 = 0 then RecResult.eof arr1 else
  let st9 := skip_field st8.1 st8.2
  if st9.1 = 0 then RecResult.eof arr1 else
  let st10 := skip_all_calldata st9.1 st9.2
  RecResult.ok arr1 st10.1 st10.2

/-- The `iter_vcf` driver loop (lines 1196-1292) for the
`fields = {'variants/POS'}` configuration, with one unit of fuel per
record: on `c == 0` emit the left-over chunk (`values[:limit]` with
`limit = chunk_variant_index`, emitted only when nonzero) after the full
chunks; otherwise parse one record, then either advance
`chunk_variant_index` or freeze the full POS column as a chunk and
start a fresh column filled with -1. -/
def iter_vcf_pos_go (L : Nat) :
    Nat → Nat → List Nat → List (List Int) → Nat → List Int →
      Option (List (List Int))
  | 0, _, _, _, _, _ => none
  | fuel + 1, c, input, chunks, cvi, arr =>
    if c = 0 then some (chunks ++ if 0 < cvi then [arr.take cvi] else [])
    else
      match record_parse cvi arr c input with
      | RecResult.div => none
      | RecResult.eof arr2 =>
        some (chunks ++ if 0 < cvi then [arr2.take cvi] else [])
      | RecResult.ok arr2 c2 input2 =>
        if cvi < L - 1 then iter_vcf_pos_go L fuel c2 input2 chunks (cvi + 1) arr2
        else iter_vcf_pos_go L fuel c2 input2 (chunks ++ [arr2]) 0 (List.replicate L (-1))

/-- `iter_vcf` (lines 1050-1292) for `fields = {'variants/POS'}` and
`chunk_length = L`: read the first character
(`ParserContext.__cinit__`, line 1357), then run the driver from a fresh
POS column.  The result is the list of emitted `variants/POS` chunk
columns, or `none` if the driver never returns on this stream. -/
def iter_vcf_pos (L fuel : Nat) (stream : List Nat) : Option (List (List Int)) :=
  let st := getc stream
  iter_vcf_pos_go L fuel st.1 st.2 [] 0 (List.replicate L (-1))

/-- A well-formed record line for the driver model: nine TAB-terminated
fields (CHROM, POS, then `f3`..`f9` for ID, REF, ALT, QUAL, FILTER,
INFO, FORMAT) followed by the sample columns `tailF` and a NEWLINE. -/
structure RecLine where
  chromF : List Nat
  posF : List Nat
  f3 : List Nat
  f4 : List Nat
  f5 : List Nat
  f6 : List Nat
  f7 : List Nat
  f8 : List Nat
  f9 : List Nat
  tailF : List Nat
  deriving Repr

/-- Field bytes admissible inside a TAB-terminated field: no TAB,
NEWLINE or sentinel byte. -/
def fieldOk (f : List Nat) : Prop := ∀ x ∈ f, x ≠ TAB ∧ x ≠ NEWLINE ∧ x ≠ 0

instance (f : List Nat) : Decidable (fieldOk f) := by
  unfold fieldOk; infer_instance

/-- Sample-column bytes admissible before the record's NEWLINE: no
NEWLINE and no sentinel byte (TABs and COLONs separate the samples and
their subfields). -/
def tailOk (t : List Nat) : Prop := ∀ x ∈ t, x ≠ NEWLINE ∧ x ≠ 0

instance (t : List Nat) : Decidable (tailOk t) := by
  unfold tailOk; infer_instance

/-- Well-formedness of a record line: all nine fields admissible and the
sample columns free of NEWLINE and sentinel bytes. -/
def RecLine.wf (r : RecLine) : Prop :=
  fieldOk r.chromF ∧ fieldOk r.posF ∧ fieldOk r.f3 ∧ fieldOk r.f4 ∧
    fieldOk r.f5 ∧ fieldOk r.f6 ∧ fieldOk r.f7 ∧ fieldOk r.f8 ∧
    fieldOk r.f9 ∧ tailOk r.tailF

instance (r : RecLine) : Decidable r.wf := by
  unfold RecLine.wf; infer_instance

/-- The bytes of one record line. -/
def RecLine.bytes (r : RecLine) : List Nat :=
  r.chromF ++ TAB :: (r.posF ++ TAB :: (r.f3 ++ TAB :: (r.f4 ++ TAB ::
    (r.f5 ++ TAB :: (r.f6 ++ TAB :: (r.f7 ++ TAB :: (r.f8 ++ TAB ::
      (r.f9 ++ TAB :: (r.tailF ++ [NEWLINE])))))))))

/-- The byte stream of a list of record lines. -/
def linesBytes (lines : List RecLine) : List Nat :=
  (lines.map RecLine.bytes).flatten

/-- The write a POS outcome performs on the current column: a parsed
value overwrites the cell at the current row, a failed parse leaves the
column unchanged. -/
def applyPos (arr : List Int) (cvi : Nat) (v : Option Int) : List Int :=
  match v with
  | some x => arr.set cvi x
  | none => arr

/-- The value the record leaves in its `variants/POS` cell: `some v`
when `temp_tolong` succeeds on the POS field (the cell is overwritten
with the int32 cast of `v`), `none` when it fails (the cell keeps its
previous content, the fill -1 on a fresh column). -/
def RecLine.posVal (r : RecLine) : Option Int :=
  match (temp_tolong r.posF).1 with
  | some v => some (wrap32 v)
  | none => none

/-- The chunk bookkeeping of the driver, at the level of one parsed
record with POS outcome `v` (mirrors lines 1243-1267 plus the POS store
of line 1672): state is (emitted chunks, `chunk_variant_index`, current
POS column). -/
def chunkFoldStep (L : Nat) (s : List (List Int) × Nat × List Int)
    (v : Option Int) : List (List Int) × Nat × List Int :=
  let arr' := applyPos s.2.2 s.2.1 v
  if s.2.1 < L - 1 then (s.1, s.2.1 + 1, arr')
  else (s.1 ++ [arr'], 0, List.replicate L (-1))

/-- Final chunk list from a driver chunk state (the left-over block of
lines 1275-1292). -/
def finishChunks (s : List (List Int) × Nat × List Int) : List (List Int) :=
  s.1 ++ if 0 < s.2.1 then [s.2.2.take s.2.1] else []

/-- Successive POS writes into a column, one per record, starting at row
`k` (specification side, for reasoning about one chunk's worth of
records). -/
def setSeq : List Int → Nat → List (Option Int) → List Int
  | arr, _, [] => arr
  | arr, k, v :: vs => setSeq (applyPos arr k v) (k + 1) vs

/-- A concrete well-formed record line (POS 14370). -/
def exLine1 : RecLine :=
  ⟨bytesOf "20", bytesOf "14370", bytesOf "rs6054257", bytesOf "G", bytesOf "A",
    bytesOf "29", bytesOf "PASS", bytesOf "DP=14", bytesOf "GT",
    bytesOf "0|0\t1|0"⟩

/-- A concrete well-formed record line (POS 17330). -/
def exLine2 : RecLine :=
  ⟨bytesOf "20", bytesOf "17330", bytesOf ".", bytesOf "T", bytesOf "A",
    bytesOf "3", bytesOf "q10", bytesOf "DP=11", bytesOf "GT",
    bytesOf "0|0\t0|1"⟩

/-- A concrete well-formed record line (POS 1110696). -/
def exLine3 : RecLine :=
  ⟨bytesOf "20", bytesOf "1110696", bytesOf "rs6040355", bytesOf "A",
    bytesOf "G,T", bytesOf "67", bytesOf "PASS", bytesOf "DP=10", bytesOf "GT",
    bytesOf "1|2\t2|1"⟩

/-! ### Chunk emission arithmetic (C1) -/

theorem chunk_state_eq (L : Nat) (hL : 1 ≤ L) (n : Nat) :
    chunk_state L n = (List.replicate (n / L) L, n % L) := by
  induction n with
  | zero => simp [chunk_state]
  | succ n ih =>
    have hL0 : 0 < L := hL
    have hmod : n % L < L := Nat.mod_lt _ hL0
    have hsum : n + 1 = (n % L + 1) + L * (n / L) := by
      have := Nat.div_add_mod n L; omega
    rw [chunk_state, ih, chunk_step]
    by_cases h : n % L < L - 1
    · have h2 : n % L + 1 < L := by omega
      have hdiv : (n + 1) / L = n / L := by
        rw [hsum, Nat.add_mul_div_left _ _ hL0, Nat.div_eq_of_lt h2, Nat.zero_add]
      have hm : (n + 1) % L = n % L + 1 := by
        rw [hsum, Nat.add_mul_mod_self_left, Nat.mod_eq_of_lt h2]
      simp [h, hdiv, hm]
    · have heq : n % L = L - 1 := by omega
      have hsum2 : n + 1 = L * (n / L + 1) := by
        rw [Nat.mul_add, Nat.mul_one]; omega
      have hdiv : (n + 1) / L = n / L + 1 := by
        rw [hsum2, Nat.mul_div_cancel_left _ hL0]
      have hm : (n + 1) % L = 0 := by
        rw [hsum2, Nat.mul_mod_right]
      simp [h, hdiv, hm, List.replicate_succ']

/-- C1: for every stream of `n` parsed records and every
`chunk_length ≥ 1`, the driver's chunk bookkeeping (lines 1243-1267 and
1275-1292) emits exactly `n / chunk_length` full chunks of length
`chunk_length` — a chunk is frozen exactly when `chunk_length` records
have accumulated — followed by a partial tail of true length
`n % chunk_length` exactly when that remainder is nonzero.  In
particular a record count divisible by `chunk_length` emits no tail, and
`n = chunk_length + 1` emits one full chunk then a chunk of length 1. -/
theorem c1_chunk_emission (L n : Nat) (hL : 1 ≤ L) :
    iter_vcf_chunk_lengths L n =
      List.replicate (n / L) L ++ (if n % L = 0 then [] else [n % L]) := by
  rw [iter_vcf_chunk_lengths, chunk_state_eq L hL n]
  by_cases h : n % L = 0
  · simp [h]
  · simp [h, Nat.pos_of_ne_zero h]

/-- C1 witness: at `chunk_length = 2`, five records yield two full chunks
and a tail of length 1; in particular `chunk_length + 1 = 3` records
yield `[2, 1]` and four records yield `[2, 2]` with no tail. -/
theorem c1_chunk_emission_witness :
    iter_vcf_chunk_lengths 2 5 = [2, 2, 1] ∧ iter_vcf_chunk_lengths 2 3 = [2, 1] ∧
      iter_vcf_chunk_lengths 2 4 = [2, 2] := by
  refine ⟨?_, ?_, ?_⟩
  · rw [c1_chunk_emission 2 5 (by decide)]; decide
  · rw [c1_chunk_emission 2 3 (by decide)]; decide
  · rw [c1_chunk_emission 2 4 (by decide)]; decide

/-! ### Genotype ploidy bound (C2) -/

/-- C2: the genotype parser stores at most `ploidy` alleles.  First,
`genotype_store` (lines 2782-2784) drops any allele whose index is at or
past `ploidy` silently — the row is unchanged and no warning is emitted,
for every row, scratch content and index.  Second, on the triploid input
`0|1|2` with `ploidy = 2` the stored row is `[0, 1]`, the terminator is
left unconsumed, and no warning is emitted.  Third, on input `0` with
`ploidy = 2` the unparsed slot keeps the fill value -1. -/
theorem c2_genotype_ploidy :
    (∀ (ploidy : Nat) (row : List Int) (temp : List Nat) (ai : Nat),
        ploidy ≤ ai → genotype_store ploidy row temp ai = (row, [])) ∧
      genotype_parse 2 [-1, -1] (getc (bytesOf "0|1|2\tz")).1
          (getc (bytesOf "0|1|2\tz")).2 = some ([0, 1], [], (TAB, bytesOf "z")) ∧
      genotype_parse 2 [-1, -1] (getc (bytesOf "0\tz")).1
          (getc (bytesOf "0\tz")).2 = some ([0, -1], [], (TAB, bytesOf "z")) := by
  refine ⟨?_, by decide, by decide⟩
  intro ploidy row temp ai h
  rw [genotype_store, if_pos h]

/-- C2 witness: the silent-drop clause applied at allele index 2 with
`ploidy = 2` (the third allele of a triploid call). -/
theorem c2_genotype_ploidy_witness :
    genotype_store 2 [0, 1] (bytesOf "2") 2 = ([0, 1], []) :=
  c2_genotype_ploidy.1 2 [0, 1] (bytesOf "2") 2 (by decide)

/-! ### Scratch buffer overflow (C5) -/

/-- C5: the claim mandates that appending past the scratch capacity is
clamped and warned; the code does neither.  With a scratch buffer of
capacity `temp_buffer_size = 4` already holding 4 bytes, `temp_append`
(lines 1416-1429) writes at offset 4 — not below the capacity, hence out
of bounds — does not clamp the size (it grows to 5) and emits no
warning; and the unbounded read loop feeding it (lines 1663-1665)
happily accumulates all 5 bytes of the token `12345`. -/
theorem c5_temp_append_unchecked :
    temp_append 4 53 = (4, 5, []) ∧ ¬ (4 : Nat) < 4 ∧
      readUntilTab (getc (bytesOf "12345\tX")).1 (getc (bytesOf "12345\tX")).2 =
        some (bytesOf "12345", bytesOf "X") ∧ (bytesOf "12345").length = 5 := by
  refine ⟨rfl, by decide, by decide, by decide⟩

/-! ### Chunk shapes: GT never squeezed (C10) -/

/-- C10: for every emitted chunk, `calldata/GT` has shape
`(chunk_len, n_samples, ploidy)` — its trailing axis survives even when
`ploidy = 1` — while every other calldata field of declared `number = 1`
has its trailing axis squeezed away, and keeps it when `number ≠ 1`.
`chunk_len` is the full `chunk_length` for an interior chunk
(`limit = None`) and the true tail length for the final one. -/
theorem c10_gt_never_squeezed (L ns p num : Nat) (limit : Option Nat) :
    gt_mkchunk_shape L ns p limit = [slice_len L limit, ns, p] ∧
      (gt_mkchunk_shape L ns 1 limit).length = 3 ∧
      (num = 1 → calldata_mkchunk_shape L ns num limit = [slice_len L limit, ns]) ∧
      (num ≠ 1 → calldata_mkchunk_shape L ns num limit = [slice_len L limit, ns, num]) := by
  refine ⟨rfl, rfl, ?_, ?_⟩
  · intro h; subst h; rfl
  · intro h; rw [calldata_mkchunk_shape, if_neg h]

/-- C10 witness: with `chunk_length = 7`, two samples, `ploidy = 1` and a
tail limit of 3, GT keeps its trailing axis of extent 1 while a calldata
field of `number = 1` loses it and one of `number = 4` keeps it. -/
theorem c10_gt_never_squeezed_witness :
    gt_mkchunk_shape 7 2 1 (some 3) = [3, 2, 1] ∧
      calldata_mkchunk_shape 7 2 1 (some 3) = [3, 2] ∧
      calldata_mkchunk_shape 7 2 4 none = [7, 2, 4] := by
  have h := c10_gt_never_squeezed 7 2 1 1 (some 3)
  have h4 := c10_gt_never_squeezed 7 2 1 4 none
  exact ⟨h.1, h.2.2.1 rfl, h4.2.2.2 (by decide)⟩

/-! ### Non-termination of the TAB-seeking loops at end-of-stream (C4) -/

theorem string_parse_loop_no_tab (itemsize : Nat) :
    ∀ (fuel : Nat) (mem : List Nat) (stored c : Nat) (input : List Nat),
      c ≠ TAB → (∀ x ∈ input, x ≠ TAB) →
      string_parse_loop itemsize fuel mem stored c input = none := by
  intro fuel
  induction fuel with
  | zero => intro mem stored c input _ _; rfl
  | succ fuel ih =>
    intro mem stored c input hc hin
    rw [string_parse_loop, if_neg hc]
    cases input with
    | nil =>
      by_cases h : stored < itemsize
      · rw [if_pos h]; exact ih _ _ _ _ (by decide) (by intro x hx; cases hx)
      · rw [if_neg h]; exact ih _ _ _ _ (by decide) (by intro x hx; cases hx)
    | cons x xs =>
      have hx : x ≠ TAB := hin x (by simp)
      have hxs : ∀ y ∈ xs, y ≠ TAB := fun y hy => hin y (by simp [hy])
      by_cases h : stored < itemsize
      · rw [if_pos h]; exact ih _ _ _ _ hx hxs
      · rw [if_neg h]; exact ih _ _ _ _ hx hxs

theorem temp_until_tab_loop_no_tab :
    ∀ (fuel : Nat) (temp : List Nat) (c : Nat) (input : List Nat),
      c ≠ TAB → (∀ x ∈ input, x ≠ TAB) →
      temp_until_tab_loop fuel temp c input = none := by
  intro fuel
  induction fuel with
  | zero => intro temp c input _ _; rfl
  | succ fuel ih =>
    intro temp c input hc hin
    rw [temp_until_tab_loop, if_neg hc]
    cases input with
    | nil => exact ih _ _ _ (by decide) (by intro x hx; cases hx)
    | cons x xs =>
      have hx : x ≠ TAB := hin x (by simp)
      have hxs : ∀ y ∈ xs, y ≠ TAB := fun y hy => hin y (by simp [hy])
      exact ih _ _ _ hx hxs

/-- C4: the claim says a stream ending mid-record terminates the record
and the parser; the code instead loops forever.  On the stream `20`
(end-of-stream inside the CHROM field, before any TAB) the
`while context.c != TAB` loop of `string_parse` (lines 1599-1608) never
returns — once the reader is exhausted the lookahead sticks at the
sentinel 0, which is not TAB — whatever fuel it is given; the identical
loop of `qual_parse` (lines 1823-1825) on the stream `29` likewise never
returns; and the whole `iter_vcf` driver on the stream `20` never
returns a chunk list. -/
theorem c4_eof_mid_record_diverges :
    (∀ fuel mem stored, string_parse_loop 12 fuel mem stored
        (getc (bytesOf "20")).1 (getc (bytesOf "20")).2 = none) ∧
      (∀ fuel cell, qual_parse_fuel fuel cell
        (getc (bytesOf "29")).1 (getc (bytesOf "29")).2 = none) ∧
      (∀ fuel, iter_vcf_pos 2 fuel (bytesOf "20") = none) := by
  refine ⟨?_, ?_, ?_⟩
  · intro fuel mem stored
    exact string_parse_loop_no_tab 12 fuel mem stored _ _ (by decide) (by decide)
  · intro fuel cell
    rw [qual_parse_fuel, temp_until_tab_loop_no_tab fuel [] _ _ (by decide) (by decide)]
  · intro fuel
    cases fuel with
    | zero => rfl
    | succ fuel => rfl

/-! ### Numeric prefix with trailing characters: warn but succeed (C8) -/

theorem bytes_12x : bytesOf "12x" = [49, 50, 120] := rfl

theorem strtod_12x : strtodParse [49, 50, 120] = (12, 2) := by
  rw [strtodParse]
  norm_num [isSpaceByte, isDigitByte, digitsToNat, PERIOD]

theorem todouble_12x :
    temp_todouble (bytesOf "12x") = (some 12, [Warning.floatNotAll]) := by
  rw [bytes_12x, temp_todouble, if_neg (by decide), if_neg (by decide), strtod_12x]
  norm_num

/-- C8: for every scratch token on which `strtol` consumes a nonempty
proper prefix (trailing unparsed characters remain, as in `12x`),
`temp_tolong` (lines 1475-1477) warns `not all characters parsed` but
reports success, and likewise `temp_todouble` (lines 1515-1517); so the
prefix value is stored: the INFO int32 parser run on the value `12x`
stores 12 in its row rather than the fill, and the float64 store writes
12 rather than leaving the fill. -/
theorem c8_prefix_warn_success :
    (∀ (temp : List Nat) (v : Int) (p : Nat), strtol10 temp = (v, p) →
        0 < p → p < temp.length → temp_tolong temp = (some v, [Warning.intNotAll])) ∧
      (∀ (temp : List Nat) (q : ℚ) (p : Nat), strtodParse temp = (q, p) →
        0 < p → p < temp.length → temp_todouble temp = (some q, [Warning.floatNotAll])) ∧
      info_integer_parse 1 [-1] (getc (bytesOf "12x;Q")).1 (getc (bytesOf "12x;Q")).2 =
        ([12], [Warning.intNotAll], (SEMICOLON, bytesOf "Q")) ∧
      info_floating_store 1 [(-1 : ℚ)] (bytesOf "12x") 0 = ([12], [Warning.floatNotAll]) := by
  refine ⟨?_, ?_, by decide, ?_⟩
  · intro temp v p h hp hlen
    have h1 : temp ≠ [] := by
      rintro rfl; simp at hlen
    have h2 : temp ≠ [PERIOD] := by
      rintro rfl; simp at hlen; omega
    have hne : ¬ ((strtol10 temp).2 = temp.length) := by rw [h]; omega
    have hpos : 0 < (strtol10 temp).2 := by rw [h]; exact hp
    simp only [temp_tolong, if_neg h1, if_neg h2, if_neg hne, if_pos hpos, h]
    rw [if_neg (by omega), if_pos hp]
  · intro temp q p h hp hlen
    have h1 : temp ≠ [] := by
      rintro rfl; simp at hlen
    have h2 : temp ≠ [PERIOD] := by
      rintro rfl; simp at hlen; omega
    have hne : ¬ ((strtodParse temp).2 = temp.length) := by rw [h]; omega
    have hpos : 0 < (strtodParse temp).2 := by rw [h]; exact hp
    simp only [temp_todouble, if_neg h1, if_neg h2, if_neg hne, if_pos hpos, h]
    rw [if_neg (by omega), if_pos hp]
  · rw [info_floating_store, if_neg (by decide), todouble_12x]
    rfl

/-- C8 witness: both conversion clauses applied to the token `12x`
(`strtol`/`strtod` consume the prefix `12` of the 3 characters). -/
theorem c8_prefix_warn_success_witness :
    temp_tolong (bytesOf "12x") = (some 12, [Warning.intNotAll]) ∧
      temp_todouble (bytesOf "12x") = (some 12, [Warning.floatNotAll]) :=
  ⟨c8_prefix_warn_success.1 (bytesOf "12x") 12 2 (by decide) (by decide) (by decide),
    c8_prefix_warn_success.2.1 (bytesOf "12x") 12 2 (by rw [bytes_12x]; exact strtod_12x)
      (by decide) (by decide)⟩

/-! ### POS parse failure (C3) -/

/-- C3 counterexample: the claim says every POS field that fails to
parse as a base-10 signed integer warns and leaves the fill -1; but on
the POS field `12x` — not an integer — `pos_parse` warns yet stores the
prefix value 12, so the fill is not left. -/
theorem c3_pos_counterexample :
    pos_parse [-1] 0 (getc (bytesOf "12x\tQ")).1 (getc (bytesOf "12x\tQ")).2 =
      some ([12], (81, []), [Warning.intNotAll]) ∧ ([12] : List Int) ≠ [-1] := by
  refine ⟨by decide, by decide⟩

/-- C3 amended: for every record whose POS field makes `strtol` consume
no characters at all and is not the explicit missing value `.`,
`pos_parse` (lines 1651-1677) issues exactly one warning, leaves the POS
column untouched (hence the fill -1 on a fresh column), and advances
past the TAB to continue parsing normally.  (A field with a parseable
numeric prefix, such as `12x`, instead warns and stores the prefix; a
lone `.` leaves the fill silently.) -/
theorem c3_pos_parse_failure (arr : List Int) (cvi c : Nat) (input temp input1 : List Nat)
    (hread : readUntilTab c input = some (temp, input1))
    (h0 : (strtol10 temp).2 = 0) (hper : temp ≠ [PERIOD]) :
    ∃ w : Warning, pos_parse arr cvi c input = some (arr, getc input1, [w]) := by
  rw [pos_parse, hread]
  by_cases he : temp = []
  · exact ⟨Warning.intEmpty, by subst he; rfl⟩
  · refine ⟨Warning.intErr, ?_⟩
    have hlen : temp.length ≠ 0 := by simpa using he
    have hne : ¬ ((strtol10 temp).2 = temp.length) := by omega
    have hpos : ¬ (0 < (strtol10 temp).2) := by omega
    simp only [temp_tolong, if_neg he, if_neg hper, if_neg hne, if_neg hpos]

/-- C3 witness: the amended clause applied to the POS field `abc`: one
warning, column kept at the fill -1, input advanced past the TAB. -/
theorem c3_pos_parse_failure_witness :
    ∃ w : Warning, pos_parse [-1] 0 (getc (bytesOf "abc\tQ")).1
      (getc (bytesOf "abc\tQ")).2 = some ([-1], getc (bytesOf "Q"), [w]) :=
  c3_pos_parse_failure [-1] 0 _ _ (bytesOf "abc") (bytesOf "Q")
    (by decide) (by decide) (by decide)

/-! ### Leading-period missing values (C9) and FILTER tokenization (C6) -/

theorem skip_until_tab_unfold (c : Nat) (input : List Nat) :
    skip_until_tab c input =
      if c = TAB then some (getc input)
      else
        match input with
        | [] => none
        | x :: xs => skip_until_tab x xs := by
  cases input <;> rfl

theorem skip_until_tab_spec :
    ∀ (f : List Nat) (c : Nat) (rest : List Nat), c ≠ TAB → TAB ∉ f →
      skip_until_tab c (f ++ TAB :: rest) = some (getc rest) := by
  intro f
  induction f with
  | nil =>
    intro c rest hc _
    rw [List.nil_append, skip_until_tab_unfold, if_neg hc]
    show skip_until_tab TAB rest = some (getc rest)
    rw [skip_until_tab_unfold, if_pos rfl]
  | cons g gs ih =>
    intro c rest hc hf
    rw [List.cons_append, skip_until_tab_unfold, if_neg hc]
    exact ih g rest (fun h => hf (h ▸ List.mem_cons_self g gs))
      (fun h => hf (List.mem_cons_of_mem g h))

/-- C9: the missing-value test of both `filter_parse` (lines 1878-1882)
and `info_parse` (lines 1987-1991) examines only the first byte of the
field: whenever that byte is `.`, the whole field — whatever follows the
period — is consumed up to the next TAB, the input advances past the
TAB, and nothing is stored and nothing warned (for INFO, with the
`DP`-only configuration, the DP row is untouched); so a field such as
`.q10` stores nothing. -/
theorem c9_leading_period_missing :
    (∀ (flt : List (List Nat)) (f rest : List Nat) (row : List Bool), TAB ∉ f →
        filter_parse flt PERIOD (f ++ TAB :: rest) row = some (row, [], getc rest)) ∧
      (∀ (num fuel : Nat) (f rest : List Nat) (row : List Int), TAB ∉ f →
        info_parse_DP num fuel PERIOD (f ++ TAB :: rest) row = some (row, [], getc rest)) := by
  constructor
  · intro flt f rest row hf
    rw [filter_parse, if_pos rfl, skip_until_tab_spec f PERIOD rest (by decide) hf]
    rfl
  · intro num fuel f rest row hf
    rw [info_parse_DP, if_pos rfl, skip_until_tab_spec f PERIOD rest (by decide) hf]
    rfl

/-- C9 witness: the FILTER field `.q10` (with `q10` a configured filter)
and the INFO field `.q10` (with the `DP` configuration) both consume to
the TAB and store nothing. -/
theorem c9_leading_period_missing_witness :
    filter_parse [bytesOf "q10"] PERIOD (bytesOf "q10" ++ TAB :: bytesOf "X")
        [false, false] = some ([false, false], [], getc (bytesOf "X")) ∧
      info_parse_DP 1 9 PERIOD (bytesOf "q10" ++ TAB :: bytesOf "X") [-1] =
        some ([-1], [], getc (bytesOf "X")) :=
  ⟨c9_leading_period_missing.1 [bytesOf "q10"] (bytesOf "q10") (bytesOf "X")
      [false, false] (by decide),
    c9_leading_period_missing.2 1 9 (bytesOf "q10") (bytesOf "X") [-1] (by decide)⟩

theorem splitTokens_ne_nil (l : List Nat) : splitTokens l ≠ [] := by
  cases l with
  | nil => simp [splitTokens]
  | cons a as =>
    rw [splitTokens]
    rcases h : splitTokens as with _ | ⟨t, ts⟩
    · simp
    · by_cases hd : isFilterDelim a = true <;> simp [hd]

theorem prependFirst_nil (l : List Nat) :
    prependFirst [] (splitTokens l) = splitTokens l := by
  rcases h : splitTokens l with _ | ⟨t, ts⟩
  · exact absurd h (splitTokens_ne_nil l)
  · rw [prependFirst, List.nil_append]

theorem filter_loop_eq (flt : List (List Nat)) :
    ∀ (input : List Nat) (c : Nat) (temp : List Nat) (row : List Bool) (ws : List Warning),
      filter_loop flt c input temp row ws =
        ((storeTokens flt row ws (prependFirst temp (splitTokens
            ((c :: input).takeWhile (fun b => !isFilterTerm b))))).1,
          (storeTokens flt row ws (prependFirst temp (splitTokens
            ((c :: input).takeWhile (fun b => !isFilterTerm b))))).2,
          match (c :: input).dropWhile (fun b => !isFilterTerm b) with
          | [] => (0, [])
          | _ :: rs => getc rs) := by
  intro input
  induction input with
  | nil =>
    intro c temp row ws
    rw [filter_loop]
    cases ht : isFilterTerm c with
    | true =>
      simp [ht, List.takeWhile, List.dropWhile, splitTokens, prependFirst,
        storeTokens, getc]
    | false =>
      cases hd : isFilterDelim c with
      | true =>
        simp [ht, hd, List.takeWhile, List.dropWhile, splitTokens, prependFirst,
          storeTokens, List.append_assoc]
      | false =>
        simp [ht, hd, List.takeWhile, List.dropWhile, splitTokens, prependFirst,
          storeTokens, List.append_assoc]
  | cons x xs ih =>
    intro c temp row ws
    rw [filter_loop]
    cases ht : isFilterTerm c with
    | true =>
      simp [ht, List.takeWhile, List.dropWhile, splitTokens, prependFirst,
        storeTokens, getc]
    | false =>
      rw [List.takeWhile_cons, List.dropWhile_cons, ht]
      cases hd : isFilterDelim c with
      | true =>
        simp only [ht, hd, Bool.false_eq_true, if_false, if_true, ih,
          Bool.not_false, ite_true]
        rcases hs : splitTokens ((x :: xs).takeWhile (fun b => !isFilterTerm b))
          with _ | ⟨t, ts⟩
        · exact absurd hs (splitTokens_ne_nil _)
        · simp [splitTokens, hd, hs, prependFirst, prependFirst_nil, storeTokens,
            List.append_assoc]
      | false =>
        simp only [ht, hd, Bool.false_eq_true, if_false, ih, Bool.not_false,
          ite_true]
        rcases hs : splitTokens ((x :: xs).takeWhile (fun b => !isFilterTerm b))
          with _ | ⟨t, ts⟩
        · exact absurd hs (splitTokens_ne_nil _)
        · simp [splitTokens, hd, hs, prependFirst, storeTokens, List.append_assoc]

/-- C6 counterexample: the claim routes every FILTER field that is not
the explicit single-character `.` through the token loop; but the code's
missing-value test reads only the first byte (line 1878), so on the
field `.;q10` — with `q10` a configured filter — the row stays all zero,
although tokenizing it as the claim describes would set the `q10`
column. -/
theorem c6_filter_counterexample :
    filter_parse [bytesOf "q10"] (getc (bytesOf ".;q10\tX")).1
        (getc (bytesOf ".;q10\tX")).2 [false, false] =
      some ([false, false], [], (88, [])) ∧
      (storeTokens [bytesOf "q10"] [false, false] []
        (splitTokens ((bytesOf ".;q10\tX").takeWhile (fun b => !isFilterTerm b)))).1 =
        [true, false] ∧
      ([false, false] : List Bool) ≠ [true, false] := by
  refine ⟨by decide, by decide, by decide⟩

/-- C6 amended: for every record, if the FILTER field *begins with* `.`
the input is consumed to the TAB and the record's filter row stays
untouched (all zero); otherwise the field — everything up to the first
TAB, NEWLINE or sentinel 0 — is split into tokens on COMMA, COLON and
SEMICOLON and each token is stored in order: a token present in the
configured filter map sets its boolean column to 1, a nonempty unknown
token is silently discarded, and an empty token produces the
`empty FILTER` warning; the terminator is consumed. -/
theorem c6_filter_tokenization :
    (∀ (flt : List (List Nat)) (f rest : List Nat) (row : List Bool), TAB ∉ f →
        filter_parse flt PERIOD (f ++ TAB :: rest) row = some (row, [], getc rest)) ∧
      (∀ (flt : List (List Nat)) (c : Nat) (input : List Nat) (row : List Bool),
        c ≠ PERIOD →
        filter_parse flt c input row =
          some ((storeTokens flt row [] (splitTokens
              ((c :: input).takeWhile (fun b => !isFilterTerm b)))).1,
            (storeTokens flt row [] (splitTokens
              ((c :: input).takeWhile (fun b => !isFilterTerm b)))).2,
            match (c :: input).dropWhile (fun b => !isFilterTerm b) with
            | [] => (0, [])
            | _ :: rs => getc rs)) ∧
      (∀ (flt : List (List Nat)) (row : List Bool) (t : List Nat) (i : Nat),
        t ≠ [] → filter_position flt t = some i →
        filter_store flt row t = (row.set i true, [])) ∧
      (∀ (flt : List (List Nat)) (row : List Bool) (t : List Nat),
        t ≠ [] → filter_position flt t = none → filter_store flt row t = (row, [])) ∧
      (∀ (flt : List (List Nat)) (row : List Bool),
        filter_store flt row [] = (row, [Warning.emptyFilter])) := by
  refine ⟨?_, ?_, ?_, ?_, ?_⟩
  · intro flt f rest row hf
    rw [filter_parse, if_pos rfl, skip_until_tab_spec f PERIOD rest (by decide) hf]
    rfl
  · intro flt c input row hc
    rw [filter_parse, if_neg hc, filter_loop_eq, prependFirst_nil]
  · intro flt row t i ht hi
    rw [filter_store, if_neg ht, hi]
  · intro flt row t ht hi
    rw [filter_store, if_neg ht, hi]
  · intro flt row
    rw [filter_store, if_pos rfl]

/-- C6 witness: the amended clauses at concrete inputs — the field
`.q10` leaves the row zero; the field `q10,PASS` (with only `q10`
configured) sets the `q10` column and silently drops the unknown token
`PASS`; the token `q10` alone sets its column. -/
theorem c6_filter_tokenization_witness :
    filter_parse [bytesOf "q10"] PERIOD (bytesOf "q10" ++ TAB :: bytesOf "Y")
        [false, false] = some ([false, false], [], getc (bytesOf "Y")) ∧
      filter_parse [bytesOf "q10"] 113 (bytesOf "10,PASS\tX") [false, false] =
        some ([true, false], [], (88, [])) ∧
      filter_store [bytesOf "q10"] [false, false] (bytesOf "q10") =
        ([true, false], []) := by
  refine ⟨c6_filter_tokenization.1 [bytesOf "q10"] (bytesOf "q10") (bytesOf "Y")
      [false, false] (by decide), ?_, ?_⟩
  · have h := c6_filter_tokenization.2.1 [bytesOf "q10"] 113 (bytesOf "10,PASS\tX")
      [false, false] (by decide)
    rw [h]; decide
  · exact c6_filter_tokenization.2.2.1 [bytesOf "q10"] [false, false]
      (bytesOf "q10") 0 (by decide) (by decide)

/-! ### Stream coherence of the driver (C7) -/

theorem skip_field_unfold (c : Nat) (input : List Nat) :
    skip_field c input =
      if c = TAB ∨ c = NEWLINE ∨ c = 0 then getc input
      else
        match input with
        | [] => (0, [])
        | x :: xs => skip_field x xs := by
  cases input <;> rfl

theorem skip_all_calldata_unfold (c : Nat) (input : List Nat) :
    skip_all_calldata c input =
      if c = NEWLINE ∨ c = 0 then getc input
      else
        match input with
        | [] => (0, [])
        | x :: xs => skip_all_calldata x xs := by
  cases input <;> rfl

theorem readUntilTab_unfold (c : Nat) (input : List Nat) :
    readUntilTab c input =
      if c = TAB then some ([], input)
      else
        match input with
        | [] => none
        | x :: xs => (readUntilTab x xs).map (fun r => (c :: r.1, r.2)) := by
  cases input <;> rfl

theorem skip_field_spec :
    ∀ (f : List Nat) (c : Nat) (rest : List Nat),
      c ≠ TAB ∧ c ≠ NEWLINE ∧ c ≠ 0 → fieldOk f →
      skip_field c (f ++ TAB :: rest) = getc rest := by
  intro f
  induction f with
  | nil =>
    intro c rest hc _
    rw [List.nil_append, skip_field_unfold, if_neg (by tauto)]
    show skip_field TAB rest = getc rest
    rw [skip_field_unfold, if_pos (Or.inl rfl)]
  | cons g gs ih =>
    intro c rest hc hf
    rw [List.cons_append, skip_field_unfold, if_neg (by tauto)]
    exact ih g rest (hf g (List.mem_cons_self g gs))
      (fun x hx => hf x (List.mem_cons_of_mem g hx))

theorem skip_all_calldata_spec :
    ∀ (t : List Nat) (c : Nat) (rest : List Nat),
      c ≠ NEWLINE ∧ c ≠ 0 → tailOk t →
      skip_all_calldata c (t ++ NEWLINE :: rest) = getc rest := by
  intro t
  induction t with
  | nil =>
    intro c rest hc _
    rw [List.nil_append, skip_all_calldata_unfold, if_neg (by tauto)]
    show skip_all_calldata NEWLINE rest = getc rest
    rw [skip_all_calldata_unfold, if_pos (Or.inl rfl)]
  | cons g gs ih =>
    intro c rest hc ht
    rw [List.cons_append, skip_all_calldata_unfold, if_neg (by tauto)]
    exact ih g rest (ht g (List.mem_cons_self g gs))
      (fun x hx => ht x (List.mem_cons_of_mem g hx))

theorem readUntilTab_spec :
    ∀ (f : List Nat) (c : Nat) (rest : List Nat), c ≠ TAB → TAB ∉ f →
      readUntilTab c (f ++ TAB :: rest) = some (c :: f, rest) := by
  intro f
  induction f with
  | nil =>
    intro c rest hc _
    rw [List.nil_append, readUntilTab_unfold, if_neg hc]
    show (readUntilTab TAB rest).map (fun r => (c :: r.1, r.2)) = some ([c], rest)
    rw [readUntilTab_unfold, if_pos rfl]
    rfl
  | cons g gs ih =>
    intro c rest hc hf
    rw [List.cons_append, readUntilTab_unfold, if_neg hc]
    show (readUntilTab g (gs ++ TAB :: rest)).map (fun r => (c :: r.1, r.2)) = _
    rw [ih g rest (fun h => hf (h ▸ List.mem_cons_self g gs))
      (fun h => hf (List.mem_cons_of_mem g h))]
    rfl

/-- Load a stream into the single-byte lookahead: the first byte of a
field followed by a separator is never the sentinel. -/
theorem getc_field_ne_zero (f : List Nat) (d : Nat) (rest : List Nat)
    (hd : d ≠ 0) (hf : ∀ x ∈ f, x ≠ 0) : (getc (f ++ d :: rest)).1 ≠ 0 := by
  cases f with
  | nil => simpa [getc] using hd
  | cons g gs => simpa [getc] using hf g (List.mem_cons_self g gs)

theorem skip_field_stream (f : List Nat) (rest : List Nat) (hf : fieldOk f) :
    skip_field (getc (f ++ TAB :: rest)).1 (getc (f ++ TAB :: rest)).2 = getc rest := by
  cases f with
  | nil =>
    show skip_field TAB rest = getc rest
    rw [skip_field_unfold, if_pos (Or.inl rfl)]
  | cons g gs =>
    show skip_field g (gs ++ TAB :: rest) = getc rest
    exact skip_field_spec gs g rest (hf g (List.mem_cons_self g gs))
      (fun x hx => hf x (List.mem_cons_of_mem g hx))

theorem skip_until_tab_stream (f : List Nat) (rest : List Nat) (hf : fieldOk f) :
    skip_until_tab (getc (f ++ TAB :: rest)).1 (getc (f ++ TAB :: rest)).2 =
      some (getc rest) := by
  cases f with
  | nil =>
    show skip_until_tab TAB rest = some (getc rest)
    rw [skip_until_tab_unfold, if_pos rfl]
  | cons g gs =>
    show skip_until_tab g (gs ++ TAB :: rest) = some (getc rest)
    exact skip_until_tab_spec gs g rest (hf g (List.mem_cons_self g gs)).1
      (fun hx => ((hf TAB (List.mem_cons_of_mem g hx)).1 rfl))

theorem skip_all_calldata_stream (t : List Nat) (rest : List Nat) (ht : tailOk t) :
    skip_all_calldata (getc (t ++ NEWLINE :: rest)).1
      (getc (t ++ NEWLINE :: rest)).2 = getc rest := by
  cases t with
  | nil =>
    show skip_all_calldata NEWLINE rest = getc rest
    rw [skip_all_calldata_unfold, if_pos (Or.inl rfl)]
  | cons g gs =>
    show skip_all_calldata g (gs ++ NEWLINE :: rest) = getc rest
    exact skip_all_calldata_spec gs g rest (ht g (List.mem_cons_self g gs))
      (fun x hx => ht x (List.mem_cons_of_mem g hx))

theorem readUntilTab_stream (f : List Nat) (rest : List Nat) (hf : fieldOk f) :
    readUntilTab (getc (f ++ TAB :: rest)).1 (getc (f ++ TAB :: rest)).2 =
      some (f, rest) := by
  cases f with
  | nil =>
    show readUntilTab TAB rest = some ([], rest)
    rw [readUntilTab_unfold, if_pos rfl]
  | cons g gs =>
    show readUntilTab g (gs ++ TAB :: rest) = some (g :: gs, rest)
    exact readUntilTab_spec gs g rest (hf g (List.mem_cons_self g gs)).1
      (fun hx => ((hf TAB (List.mem_cons_of_mem g hx)).1 rfl))

/-- `pos_parse` through a well-formed POS field: the stored cell is the
record's POS outcome and the input advances past the field's TAB. -/
theorem pos_parse_stream (f : List Nat) (rest : List Nat) (arr : List Int)
    (cvi : Nat) (hf : fieldOk f) :
    pos_parse arr cvi (getc (f ++ TAB :: rest)).1 (getc (f ++ TAB :: rest)).2 =
      some (applyPos arr cvi ((temp_tolong f).1.map wrap32), getc rest,
        (temp_tolong f).2) := by
  rw [pos_parse, readUntilTab_stream f rest hf]
  rcases h : (temp_tolong f).1 with _ | v <;> simp [h, applyPos]

theorem getc_field_zero (f : List Nat) (R : List Nat) (hf : fieldOk f) :
    ((getc (f ++ TAB :: R)).1 = 0) = False :=
  eq_false (getc_field_ne_zero f TAB R (by decide) (fun x hx => (hf x hx).2.2))

theorem getc_tail_zero (t : List Nat) (R : List Nat) (ht : tailOk t) :
    ((getc (t ++ NEWLINE :: R)).1 = 0) = False :=
  eq_false (getc_field_ne_zero t NEWLINE R (by decide) (fun x hx => (ht x hx).2))

theorem RecLine.posVal_eq (r : RecLine) :
    r.posVal = (temp_tolong r.posF).1.map wrap32 := by
  rw [RecLine.posVal]
  rcases h : (temp_tolong r.posF).1 with _ | v <;> simp [h]

/-- Driving the state machine through one well-formed record line: the
ten field parsers consume exactly the line's bytes, the POS outcome is
written to the current row of the column, and the lookahead lands on the
first byte of what follows. -/
theorem record_parse_line (r : RecLine) (hr : r.wf) (rest : List Nat)
    (cvi : Nat) (arr : List Int) :
    record_parse cvi arr (getc (r.bytes ++ rest)).1 (getc (r.bytes ++ rest)).2 =
      RecResult.ok (applyPos arr cvi r.posVal) (getc rest).1 (getc rest).2 := by
  obtain ⟨h1, h2, h3, h4, h5, h6, h7, h8, h9, ht⟩ := hr
  rw [RecLine.bytes, RecLine.posVal_eq]
  simp only [List.append_assoc, List.cons_append, List.singleton_append]
  simp only [record_parse, skip_until_tab_stream, pos_parse_stream,
    skip_field_stream, skip_all_calldata_stream, getc_field_zero, getc_tail_zero,
    h1, h2, h3, h4, h5, h6, h7, h8, h9, ht, if_false, List.nil_append]

theorem recline_head_zero (r : RecLine) (hr : r.wf) (X : List Nat) :
    ((getc (r.bytes ++ X)).1 = 0) = False := by
  rw [RecLine.bytes]
  simp only [List.append_assoc, List.cons_append]
  exact getc_field_zero _ _ hr.1

/-- The driver over a stream of well-formed record lines, from an
arbitrary mid-parse chunk state, computes the fold of the per-record
chunk bookkeeping over the records' POS outcomes, and terminates with
the left-over chunk. -/
theorem iter_vcf_pos_go_lines (L : Nat) :
    ∀ (lines : List RecLine), (∀ r ∈ lines, r.wf) →
      ∀ (fuel : Nat), lines.length < fuel →
      ∀ (chunks : List (List Int)) (cvi : Nat) (arr : List Int),
        iter_vcf_pos_go L fuel (getc (linesBytes lines)).1
            (getc (linesBytes lines)).2 chunks cvi arr =
          some (finishChunks (List.foldl (chunkFoldStep L) (chunks, cvi, arr)
            (lines.map RecLine.posVal))) := by
  intro lines
  induction lines with
  | nil =>
    intro _ fuel hfuel chunks cvi arr
    cases fuel with
    | zero => omega
    | succ fuel =>
      show iter_vcf_pos_go L (fuel + 1) 0 [] chunks cvi arr = _
      simp [iter_vcf_pos_go, finishChunks]
  | cons r rs ih =>
    intro hwf fuel hfuel chunks cvi arr
    cases fuel with
    | zero => simp at hfuel
    | succ fuel =>
      have hr := hwf r (List.mem_cons_self r rs)
      have hrs : ∀ x ∈ rs, x.wf := fun x hx => hwf x (List.mem_cons_of_mem r hx)
      have hfuel2 : rs.length < fuel := by
        simp only [List.length_cons] at hfuel; omega
      have hlb : linesBytes (r :: rs) = r.bytes ++ linesBytes rs := by
        rw [linesBytes, List.map_cons, List.flatten_cons]; rfl
      rw [hlb]
      simp only [iter_vcf_pos_go, recline_head_zero r hr, if_false,
        record_parse_line r hr, List.map_cons, List.foldl_cons]
      by_cases hc : cvi < L - 1
      · rw [if_pos hc, ih hrs fuel hfuel2]
        simp only [chunkFoldStep, if_pos hc]
      · rw [if_neg hc, ih hrs fuel hfuel2]
        simp only [chunkFoldStep, if_neg hc]

theorem foldl_chunk_prefix (L : Nat) :
    ∀ (vals : List (Option Int)) (c0 cs : List (List Int)) (k : Nat) (a : List Int),
      List.foldl (chunkFoldStep L) (c0 ++ cs, k, a) vals =
        (c0 ++ (List.foldl (chunkFoldStep L) (cs, k, a) vals).1,
          (List.foldl (chunkFoldStep L) (cs, k, a) vals).2) := by
  intro vals
  induction vals with
  | nil => intro c0 cs k a; rfl
  | cons v vs ih =>
    intro c0 cs k a
    rw [List.foldl_cons, List.foldl_cons]
    by_cases hc : k < L - 1
    · simp only [chunkFoldStep, if_pos hc]
      exact ih c0 cs (k + 1) _
    · simp only [chunkFoldStep, if_neg hc]
      rw [List.append_assoc]
      exact ih c0 (cs ++ [applyPos a k v]) 0 _

theorem run_group (L : Nat) :
    ∀ (g : List (Option Int)) (v : Option Int) (k : Nat) (arr : List Int)
      (chunks : List (List Int)) (t : List (Option Int)),
      k + (v :: g).length = L →
      List.foldl (chunkFoldStep L) (chunks, k, arr) ((v :: g) ++ t) =
        List.foldl (chunkFoldStep L) (chunks ++ [setSeq arr k (v :: g)], 0,
          List.replicate L (-1)) t := by
  intro g
  induction g with
  | nil =>
    intro v k arr chunks t hk
    simp only [List.length_cons, List.length_nil] at hk
    have hnk : ¬ k < L - 1 := by omega
    rw [List.cons_append, List.nil_append, List.foldl_cons]
    simp only [chunkFoldStep, if_neg hnk, setSeq]
  | cons w g ih =>
    intro v k arr chunks t hk
    simp only [List.length_cons] at hk
    have hck : k < L - 1 := by omega
    rw [List.cons_append, List.foldl_cons]
    simp only [chunkFoldStep, if_pos hck]
    have h2 : (k + 1) + (w :: g).length = L := by simp only [List.length_cons]; omega
    exact ih w (k + 1) (applyPos arr k v) chunks t h2

theorem full_chunks (L : Nat) (hL : 1 ≤ L) :
    ∀ (n : Nat) (vals : List (Option Int)), vals.length = n → L ∣ n →
      ∃ C : List (List Int), ∀ chunks : List (List Int),
        List.foldl (chunkFoldStep L) (chunks, 0, List.replicate L (-1)) vals =
          (chunks ++ C, 0, List.replicate L (-1)) := by
  intro n
  induction n using Nat.strong_induction_on with
  | _ n ih =>
    intro vals hlen hdvd
    rcases Nat.eq_zero_or_pos n with hz | hpos
    · subst hz
      have : vals = [] := List.length_eq_zero.mp hlen
      subst this
      exact ⟨[], fun chunks => by simp⟩
    · have hnL : L ≤ n := Nat.le_of_dvd hpos hdvd
      rcases htk : vals.take L with _ | ⟨v, g⟩
      · exfalso
        have := congrArg List.length htk
        rw [List.length_take, hlen] at this
        simp at this
        omega
      · have hvg : (v :: g).length = L := by
          rw [← htk, List.length_take, hlen]
          omega
        obtain ⟨C', hC'⟩ := ih (n - L) (by omega) (vals.drop L)
          (by rw [List.length_drop, hlen]) (Nat.dvd_sub' hdvd dvd_rfl)
        refine ⟨setSeq (List.replicate L (-1)) 0 (v :: g) :: C', fun chunks => ?_⟩
        conv_lhs => rw [← List.take_append_drop L vals, htk]
        rw [run_group L g v 0 _ chunks _ (by omega), hC', List.append_assoc]
        rfl

theorem linesBytes_append (l1 l2 : List RecLine) :
    linesBytes (l1 ++ l2) = linesBytes l1 ++ linesBytes l2 := by
  rw [linesBytes, linesBytes, linesBytes, List.map_append, List.flatten_append]

/-- C7 counterexample: chunk_length 2, two single-record streams split
at a record boundary.  Parsing the concatenation yields one chunk of two
records, while parsing the streams separately yields one chunk each:
the chunk lists are not equal, so the claim fails whenever the first
stream's record count is not a multiple of chunk_length. -/
theorem c7_concat_counterexample :
    iter_vcf_pos 2 9 (linesBytes [exLine1] ++ linesBytes [exLine2]) =
        some [[14370, 17330]] ∧
      iter_vcf_pos 2 9 (linesBytes [exLine1]) = some [[14370]] ∧
      iter_vcf_pos 2 9 (linesBytes [exLine2]) = some [[17330]] ∧
      ([[14370, 17330]] : List (List Int)) ≠ [[14370]] ++ [[17330]] := by
  refine ⟨by decide, by decide, by decide, by decide⟩

/-- C7 amended: for every pair of streams of well-formed record lines —
so the split point falls between records — *and whose first stream holds
a multiple of `chunk_length` records*, parsing the concatenation yields
exactly the concatenation of the chunk lists obtained by parsing each
stream separately.  (Without the divisibility condition the first
stream's partial tail chunk is emitted when it is parsed alone but not
when the concatenation is parsed, as the counterexample shows.) -/
theorem c7_concat_chunks (L : Nat) (hL : 1 ≤ L) (lines1 lines2 : List RecLine)
    (hw1 : ∀ r ∈ lines1, r.wf) (hw2 : ∀ r ∈ lines2, r.wf)
    (hdvd : L ∣ lines1.length)
    (fuel1 fuel2 fuel12 : Nat) (hf1 : lines1.length < fuel1)
    (hf2 : lines2.length < fuel2) (hf12 : lines1.length + lines2.length < fuel12)
    (A B : List (List Int))
    (hA : iter_vcf_pos L fuel1 (linesBytes lines1) = some A)
    (hB : iter_vcf_pos L fuel2 (linesBytes lines2) = some B) :
    iter_vcf_pos L fuel12 (linesBytes lines1 ++ linesBytes lines2) =
      some (A ++ B) := by
  obtain ⟨C, hC⟩ := full_chunks L hL lines1.length (lines1.map RecLine.posVal)
    (List.length_map _ _) hdvd
  rw [iter_vcf_pos, iter_vcf_pos_go_lines L lines1 hw1 fuel1 hf1] at hA
  rw [iter_vcf_pos, iter_vcf_pos_go_lines L lines2 hw2 fuel2 hf2] at hB
  rw [← linesBytes_append, iter_vcf_pos,
    iter_vcf_pos_go_lines L (lines1 ++ lines2)
      (by intro r hr; rcases List.mem_append.mp hr with h | h
          exacts [hw1 r h, hw2 r h])
      fuel12 (by rw [List.length_append]; omega)]
  rw [List.map_append, List.foldl_append, hC [], List.nil_append]
  have hpre := foldl_chunk_prefix L (lines2.map RecLine.posVal) C []
    0 (List.replicate L (-1))
  rw [List.append_nil] at hpre
  rw [hpre]
  have hAC : A = C := by
    rw [hC [], List.nil_append] at hA
    simp [finishChunks] at hA
    exact hA.symm
  have hBC : B = finishChunks (List.foldl (chunkFoldStep L)
      ([], 0, List.replicate L (-1)) (lines2.map RecLine.posVal)) := by
    simp only [Option.some.injEq] at hB
    exact hB.symm
  rw [hAC, hBC]
  rw [finishChunks, finishChunks]
  simp [List.append_assoc]

/-- C7 witness: `chunk_length = 2`, a first stream of two records and a
second of one: the concatenation parses to the two chunk lists
concatenated. -/
theorem c7_concat_chunks_witness :
    iter_vcf_pos 2 9 (linesBytes [exLine1, exLine2] ++ linesBytes [exLine3]) =
      some ([[14370, 17330]] ++ [[1110696]]) :=
  c7_concat_chunks 2 (by decide) [exLine1, exLine2] [exLine3]
    (by decide) (by decide) (by decide) 3 2 9 (by decide) (by decide) (by decide)
    [[14370, 17330]] [[1110696]] (by decide) (by decide)

end VcfRead
